import Mathlib

/-!
Formal model of the security-log analytics pipeline
(`src/main.py`, class `SecurityAnalyticsPipeline`).

The transformation step (`transform`), the date-window computation
(`get_date_range`) and the delivery guard (`load`) are embedded as pure
Lean functions.  Python `datetime` values are modelled by the `DateTime`
structure, and the implicit `datetime.now()` reads are made explicit
`now` parameters.  Machine floats are modelled by exact rationals:
`round(x, 2)` becomes round-half-to-even on ℚ and `int(x)` becomes
truncation toward zero.  Polars' `group_by` has no documented row order;
the embedding determinises it to first-seen order, which is also the
determinisation the specification fixes for tie-breaking.
-/

namespace SecLog

/-- Python `datetime.datetime` restricted to the fields the pipeline uses. -/
structure DateTime where
  year : Nat
  month : Nat
  day : Nat
  hour : Nat
  minute : Nat
  second : Nat
deriving DecidableEq, Repr

/-- Gregorian leap-year rule, as in Python's `datetime`. -/
def isLeap (y : Nat) : Bool :=
  (y % 4 == 0 && y % 100 != 0) || y % 400 == 0

def daysInMonth (y m : Nat) : Nat :=
  if m = 2 then (if isLeap y then 29 else 28)
  else if m = 4 ∨ m = 6 ∨ m = 9 ∨ m = 11 then 30
  else 31

/-- `d - timedelta(days=1)`: a one-day decrement with month/year rollover,
preserving the time of day, as Python datetime arithmetic does. -/
def subOneDay (d : DateTime) : DateTime :=
  if 1 < d.day then { d with day := d.day - 1 }
  else if 1 < d.month then
    { d with month := d.month - 1, day := daysInMonth d.year (d.month - 1) }
  else
    { d with year := d.year - 1, month := 12, day := 31 }

/-- `SecurityAnalyticsPipeline.get_date_range` (source lines 56-67), with
the `datetime.now()` read made an explicit `now` parameter. -/
def get_date_range (now : DateTime) : DateTime × DateTime :=
  let first_day_current := { now with day := 1 }
  let last_day_prev := subOneDay first_day_current
  let first_day_prev := { last_day_prev with day := 1 }
  (first_day_prev, first_day_current)

def parseDigits (cs : List Char) : Option Nat :=
  if cs ≠ [] ∧ cs.all Char.isDigit then
    some (cs.foldl (fun n c => 10 * n + (c.toNat - 48)) 0)
  else none

/-- Models polars `str.strptime(pl.Datetime)` for the timestamp format the
pipeline's data uses, `YYYY-MM-DD HH:MM:SS` (also accepting the ISO `T`
separator); `none` models the `ComputeError` raised on an unparseable
timestamp. -/
def strptime (s : String) : Option DateTime :=
  match s.data with
  | [y1, y2, y3, y4, c1, m1, m2, c2, d1, d2, c3, h1, h2, c4, n1, n2, c5, s1, s2] =>
    if c1 = '-' ∧ c2 = '-' ∧ (c3 = ' ' ∨ c3 = 'T') ∧ c4 = ':' ∧ c5 = ':' then
      match parseDigits [y1, y2, y3, y4], parseDigits [m1, m2], parseDigits [d1, d2],
            parseDigits [h1, h2], parseDigits [n1, n2], parseDigits [s1, s2] with
      | some y, some mo, some dd, some hh, some mi, some ss =>
        if 1 ≤ mo ∧ mo ≤ 12 ∧ 1 ≤ dd ∧ dd ≤ daysInMonth y mo ∧ hh < 24 ∧ mi < 60 ∧ ss < 60 then
          some ⟨y, mo, dd, hh, mi, ss⟩
        else none
      | _, _, _, _, _, _ => none
    else none
  | _ => none

/-- One row of the `access_logs` frame. -/
structure LogRecord where
  timestamp : String
  action : String
  country : String
  ip : String
  response_time_ms : Option ℚ
deriving DecidableEq, Repr

/-- The `with_columns(col('timestamp').str.strptime(...))` cast over a
whole frame: `none` as soon as any row's timestamp fails to parse. -/
def parseAll : List LogRecord → Option (List DateTime)
  | [] => some []
  | r :: rest =>
    match strptime r.timestamp, parseAll rest with
    | some d, some ds => some (d :: ds)
    | _, _ => none

/-- Distinct elements of a list in order of first occurrence. -/
def firstSeen : List String → List String
  | [] => []
  | k :: ks => k :: firstSeen (ks.filter (fun x => x ≠ k))
termination_by l => l.length
decreasing_by
  simp only [List.length_cons]
  exact Nat.lt_succ_of_le (List.length_filter_le _ _)

/-- `group_by(col).len()`, determinised to first-seen group order: one
`(key, count)` row per distinct key. -/
def groupCounts (keys : List String) : List (String × Nat) :=
  (firstSeen keys).map (fun k => (k, keys.count k))

/-- Insert into a list sorted by descending count, after the entries whose
count is strictly larger and before equal counts' later entries (stable). -/
def insertDesc (p : String × Nat) : List (String × Nat) → List (String × Nat)
  | [] => [p]
  | q :: rest => if q.2 ≤ p.2 then p :: q :: rest else q :: insertDesc p rest

/-- `sort('len', descending=True)`, determinised to a stable sort that
preserves input order on ties. -/
def sortDesc : List (String × Nat) → List (String × Nat)
  | [] => []
  | p :: rest => insertDesc p (sortDesc rest)

/-- `int(x)`: truncation toward zero, on exact rationals. -/
def intTrunc (q : ℚ) : ℤ :=
  if q < 0 then -⌊-q⌋ else ⌊q⌋

/-- Round to the nearest integer, ties to even (Python `round`'s rule),
on exact rationals. -/
def roundHalfEven (q : ℚ) : ℤ :=
  if q - ⌊q⌋ < 1/2 then ⌊q⌋
  else if (1 : ℚ)/2 < q - ⌊q⌋ then ⌊q⌋ + 1
  else if ⌊q⌋ % 2 = 0 then ⌊q⌋ else ⌊q⌋ + 1

/-- `round(x, 2)` on exact rationals. -/
def round2 (q : ℚ) : ℚ := (roundHalfEven (q * 100) : ℚ) / 100

def monthName : Nat → String
  | 1 => "January"
  | 2 => "February"
  | 3 => "March"
  | 4 => "April"
  | 5 => "May"
  | 6 => "June"
  | 7 => "July"
  | 8 => "August"
  | 9 => "September"
  | 10 => "October"
  | 11 => "November"
  | 12 => "December"
  | _ => ""

def pad2 (n : Nat) : String := if n < 10 then "0" ++ toString n else toString n

/-- `strftime("%B %Y")`. -/
def fmtMonthYear (d : DateTime) : String := monthName d.month ++ " " ++ toString d.year

/-- `strftime("%Y-%m-%d %H:%M:%S")`. -/
def fmtStamp (d : DateTime) : String :=
  toString d.year ++ "-" ++ pad2 d.month ++ "-" ++ pad2 d.day ++ " " ++
    pad2 d.hour ++ ":" ++ pad2 d.minute ++ ":" ++ pad2 d.second

structure Summary where
  total_requests : Nat
  blocked_requests : Nat
  security_score : ℚ
  avg_latency_ms : ℤ
deriving DecidableEq, Repr

structure TrafficQuality where
  legitimate : Nat
  bots : Nat
deriving DecidableEq, Repr

/-- The dictionary returned by `transform` for a non-empty frame.  The two
ordered dicts become association lists (their keys are distinct). -/
structure Metrics where
  report_date : String
  generated_at : String
  summary : Summary
  geo_analysis : List (String × Nat)
  threat_intel : List (String × Nat)
  traffic_quality : TrafficQuality
deriving DecidableEq, Repr

/-- `col('action').is_in(['geo_blocked', 'path_blocked', 'bot_blocked'])`. -/
def isAttack (r : LogRecord) : Bool :=
  ["geo_blocked", "path_blocked", "bot_blocked"].contains r.action

/-- The metric computation of `transform` (source lines 133-164) for a
non-empty batch whose timestamps parsed; the `datetime.now()` reads inside
`transform` are the explicit `now`. -/
def computeMetrics (rs : List LogRecord) (now : DateTime) : Metrics :=
  let attacks_df := rs.filter isAttack
  let legitimate_df := rs.filter (fun r => r.action == "legitimate")
  let top_countries := (sortDesc (groupCounts (attacks_df.map (fun r => r.country)))).take 5
  let suspicious_ips :=
    (sortDesc ((groupCounts (attacks_df.map (fun r => r.ip))).filter (fun p => 5 < p.2))).take 8
  let latencies := rs.filterMap (fun r => r.response_time_ms)
  let avg_latency : Option ℚ :=
    if latencies.isEmpty then none else some (latencies.sum / latencies.length)
  let start_date := (get_date_range now).1
  { report_date := fmtMonthYear start_date
    generated_at := fmtStamp now
    summary :=
      { total_requests := rs.length
        blocked_requests := attacks_df.length
        security_score :=
          if 0 < rs.length then round2 (((attacks_df.length : ℚ) / rs.length) * 100) else 0
        avg_latency_ms := match avg_latency with | some q => intTrunc q | none => 0 }
    geo_analysis := top_countries
    threat_intel := suspicious_ips
    traffic_quality :=
      { legitimate := legitimate_df.length
        bots := (rs.filter (fun r => r.action == "bot_allowed")).length } }

/-- `transform` (source lines 115-164): the `{}` returned for an empty
frame becomes `ok none`, and the `str.strptime` cast raising on an
unparseable timestamp becomes `error`. -/
def transform (rs : List LogRecord) (now : DateTime) : Except String (Option Metrics) :=
  if rs.isEmpty then Except.ok none
  else
    match parseAll rs with
    | none => Except.error "ComputeError: could not parse timestamp"
    | some _ => Except.ok (some (computeMetrics rs now))

inductive LoadResult where
  | skipped
  | delivered
deriving DecidableEq, Repr

/-- `load` (source lines 166-195): `if not metrics: return` — the falsy
empty dict skips rendering and delivery entirely. -/
def load (metrics : Option Metrics) : LoadResult :=
  match metrics with
  | none => LoadResult.skipped
  | some _ => LoadResult.delivered

/-- Ordering by strictly descending count, equal counts ordered by `S`. -/
abbrev DescThen (S : String × Nat → String × Nat → Prop) (a b : String × Nat) : Prop :=
  b.2 < a.2 ∨ (a.2 = b.2 ∧ S a b)

theorem mem_insertDesc {x p : String × Nat} :
    ∀ {l : List (String × Nat)}, x ∈ insertDesc p l ↔ x = p ∨ x ∈ l := by
  intro l
  induction l with
  | nil => simp [insertDesc]
  | cons q rest ih =>
    by_cases h : q.2 ≤ p.2
    · simp only [insertDesc, if_pos h, List.mem_cons]
    · simp only [insertDesc, if_neg h, List.mem_cons, ih]
      tauto

theorem mem_sortDesc {x : String × Nat} :
    ∀ {l : List (String × Nat)}, x ∈ sortDesc l ↔ x ∈ l := by
  intro l
  induction l with
  | nil => simp [sortDesc]
  | cons p rest ih => simp [sortDesc, mem_insertDesc, ih]

theorem pairwise_insertDesc {S : String × Nat → String × Nat → Prop} {p : String × Nat} :
    ∀ {l : List (String × Nat)}, l.Pairwise (DescThen S) → (∀ q ∈ l, S p q) →
      (insertDesc p l).Pairwise (DescThen S) := by
  intro l
  induction l with
  | nil =>
    intro _ _
    simp [insertDesc]
  | cons q rest ih =>
    intro hl hp
    rw [List.pairwise_cons] at hl
    obtain ⟨hq, hrest⟩ := hl
    by_cases h : q.2 ≤ p.2
    · simp only [insertDesc, if_pos h]
      refine List.Pairwise.cons ?_ (List.Pairwise.cons hq hrest)
      intro x hx
      rcases List.mem_cons.mp hx with rfl | hx'
      · rcases lt_or_eq_of_le h with hlt | heq
        · exact Or.inl hlt
        · exact Or.inr ⟨heq.symm, hp _ (List.mem_cons_self _ _)⟩
      · have hx2 : x.2 ≤ q.2 := by
          rcases hq x hx' with h1 | h1
          · exact le_of_lt h1
          · exact le_of_eq h1.1.symm
        rcases lt_or_eq_of_le (le_trans hx2 h) with hlt | heq
        · exact Or.inl hlt
        · exact Or.inr ⟨heq.symm, hp _ (List.mem_cons_of_mem _ hx')⟩
    · simp only [insertDesc, if_neg h]
      refine List.Pairwise.cons ?_ (ih hrest (fun r hr => hp r (List.mem_cons_of_mem _ hr)))
      intro x hx
      rcases mem_insertDesc.mp hx with rfl | hx'
      · exact Or.inl (lt_of_not_le h)
      · exact hq x hx'

theorem pairwise_sortDesc {S : String × Nat → String × Nat → Prop} :
    ∀ {l : List (String × Nat)}, l.Pairwise S → (sortDesc l).Pairwise (DescThen S) := by
  intro l
  induction l with
  | nil =>
    intro _
    simp [sortDesc]
  | cons p rest ih =>
    intro h
    rw [List.pairwise_cons] at h
    exact pairwise_insertDesc (ih h.2) (fun q hq => h.1 q (mem_sortDesc.mp hq))

theorem insertDesc_perm (p : String × Nat) :
    ∀ (l : List (String × Nat)), List.Perm (insertDesc p l) (p :: l) := by
  intro l
  induction l with
  | nil => simp [insertDesc]
  | cons q rest ih =>
    by_cases h : q.2 ≤ p.2
    · simp [insertDesc, h]
    · simp only [insertDesc, if_neg h]
      exact (ih.cons q).trans (List.Perm.swap p q rest)

theorem sortDesc_perm : ∀ (l : List (String × Nat)), List.Perm (sortDesc l) l := by
  intro l
  induction l with
  | nil => exact List.Perm.refl _
  | cons p rest ih => exact (insertDesc_perm p (sortDesc rest)).trans (ih.cons p)

theorem firstSeen_subset : ∀ (l : List String), ∀ x ∈ firstSeen l, x ∈ l := by
  intro l
  induction l using firstSeen.induct with
  | case1 => simp [firstSeen]
  | case2 k ks ih =>
    intro x hx
    rw [firstSeen] at hx
    rcases List.mem_cons.mp hx with rfl | hx'
    · exact List.mem_cons_self _ _
    · exact List.mem_cons_of_mem _ (List.mem_of_mem_filter (ih x hx'))

theorem indexOf_filter_lt (p : String → Bool) :
    ∀ (l : List String) {x y : String}, x ∈ l.filter p → y ∈ l.filter p →
      (l.filter p).indexOf x < (l.filter p).indexOf y → l.indexOf x < l.indexOf y := by
  intro l
  induction l with
  | nil => simp
  | cons a t ih =>
    intro x y hx hy h
    by_cases hpa : p a
    · rw [List.filter_cons_of_pos hpa] at hx hy h
      by_cases hxa : x = a
      · subst hxa
        have hyx : y ≠ x := by
          rintro rfl
          simp [List.indexOf_cons_self] at h
        rw [List.indexOf_cons_self, List.indexOf_cons_ne _ (Ne.symm hyx)]
        exact Nat.succ_pos _
      · by_cases hya : y = a
        · subst hya
          rw [List.indexOf_cons_self] at h
          exact absurd h (Nat.not_lt_zero _)
        · rw [List.indexOf_cons_ne _ (fun e => hxa e.symm),
            List.indexOf_cons_ne _ (fun e => hya e.symm)] at h
          rw [List.indexOf_cons_ne _ (fun e => hxa e.symm),
            List.indexOf_cons_ne _ (fun e => hya e.symm)]
          have hx' : x ∈ t.filter p := by
            rcases List.mem_cons.mp hx with rfl | hx' ; exact absurd rfl hxa ; exact hx'
          have hy' : y ∈ t.filter p := by
            rcases List.mem_cons.mp hy with rfl | hy' ; exact absurd rfl hya ; exact hy'
          exact Nat.succ_lt_succ (ih hx' hy' (Nat.lt_of_succ_lt_succ h))
    · rw [List.filter_cons_of_neg hpa] at hx hy h
      have hxa : x ≠ a := fun e => hpa (e ▸ (List.mem_filter.mp hx).2)
      have hya : y ≠ a := fun e => hpa (e ▸ (List.mem_filter.mp hy).2)
      rw [List.indexOf_cons_ne _ (Ne.symm hxa), List.indexOf_cons_ne _ (Ne.symm hya)]
      exact Nat.succ_lt_succ (ih hx hy h)

theorem pairwise_firstSeen :
    ∀ (l : List String), (firstSeen l).Pairwise (fun x y => l.indexOf x < l.indexOf y) := by
  intro l
  induction l using firstSeen.induct with
  | case1 => simp [firstSeen]
  | case2 k ks ih =>
    rw [firstSeen]
    refine List.Pairwise.cons ?_ ?_
    · intro y hy
      have hy' := firstSeen_subset _ y hy
      have hyk : y ≠ k := by
        have := (List.mem_filter.mp hy').2
        simpa using this
      rw [List.indexOf_cons_self, List.indexOf_cons_ne _ (Ne.symm hyk)]
      exact Nat.succ_pos _
    · refine List.Pairwise.imp_of_mem ?_ ih
      intro x y hx hy hxy
      have hx' := firstSeen_subset _ x hx
      have hy' := firstSeen_subset _ y hy
      have hxk : x ≠ k := by simpa using (List.mem_filter.mp hx').2
      have hyk : y ≠ k := by simpa using (List.mem_filter.mp hy').2
      have := indexOf_filter_lt _ ks hx' hy' hxy
      rw [List.indexOf_cons_ne _ (Ne.symm hxk), List.indexOf_cons_ne _ (Ne.symm hyk)]
      exact Nat.succ_lt_succ this

theorem firstSeen_nodup (l : List String) : (firstSeen l).Nodup := by
  refine (pairwise_firstSeen l).imp ?_
  intro a b hab
  rintro rfl
  exact lt_irrefl _ hab

theorem mem_groupCounts {p : String × Nat} {keys : List String} (h : p ∈ groupCounts keys) :
    p.1 ∈ keys ∧ p.2 = keys.count p.1 := by
  rw [groupCounts, List.mem_map] at h
  obtain ⟨k, hk, rfl⟩ := h
  exact ⟨firstSeen_subset _ _ hk, rfl⟩

theorem groupCounts_pairwise (keys : List String) :
    (groupCounts keys).Pairwise (fun a b => keys.indexOf a.1 < keys.indexOf b.1) := by
  rw [groupCounts, List.pairwise_map]
  exact pairwise_firstSeen keys

theorem groupCounts_map_fst (keys : List String) :
    (groupCounts keys).map Prod.fst = firstSeen keys := by
  simp [groupCounts, List.map_map, Function.comp_def]

theorem groupCounts_keys_nodup (keys : List String) :
    ((groupCounts keys).map Prod.fst).Nodup := by
  rw [groupCounts_map_fst]
  exact firstSeen_nodup keys

theorem roundHalfEven_nonneg {q : ℚ} (h : 0 ≤ q) : 0 ≤ roundHalfEven q := by
  have hf : 0 ≤ ⌊q⌋ := Int.floor_nonneg.mpr h
  rw [roundHalfEven]
  split
  · exact hf
  · split
    · omega
    · split
      · exact hf
      · omega

theorem roundHalfEven_le {q : ℚ} {z : ℤ} (h : q ≤ z) : roundHalfEven q ≤ z := by
  have hf : ⌊q⌋ ≤ z := by
    have h1 := Int.floor_le_floor h
    simpa using h1
  rw [roundHalfEven]
  split
  · exact hf
  · rename_i h1
    have hfz : ⌊q⌋ < z := by
      rcases eq_or_lt_of_le hf with h' | h'
      · exfalso
        apply h1
        have hzq : q ≤ (⌊q⌋ : ℚ) := by
          rw [h']
          exact_mod_cast h
        have hq0 : q - (⌊q⌋ : ℚ) ≤ 0 := by linarith
        linarith
      · exact h'
    split
    · omega
    · split
      · omega
      · omega

theorem round2_nonneg {q : ℚ} (h : 0 ≤ q) : 0 ≤ round2 q := by
  have h1 : (0 : ℚ) ≤ q * 100 := by linarith
  have h2 := roundHalfEven_nonneg h1
  rw [round2]
  have h3 : (0 : ℚ) ≤ (roundHalfEven (q * 100) : ℚ) := by exact_mod_cast h2
  positivity

theorem round2_le_100 {q : ℚ} (h : q ≤ 100) : round2 q ≤ 100 := by
  have h1 : q * 100 ≤ ((10000 : ℤ) : ℚ) := by push_cast ; linarith
  have h2 := roundHalfEven_le h1
  rw [round2, div_le_iff₀ (by norm_num : (0 : ℚ) < 100)]
  have h3 : (roundHalfEven (q * 100) : ℚ) ≤ 10000 := by exact_mod_cast h2
  linarith

theorem isAttack_eq_false_of_legit {r : LogRecord} (h : r.action = "legitimate") :
    isAttack r = false := by
  simp +decide [isAttack, h]

theorem isAttack_eq_false_of_bot {r : LogRecord} (h : r.action = "bot_allowed") :
    isAttack r = false := by
  simp +decide [isAttack, h]

theorem bucket_inc_le (r : LogRecord) :
    ((if isAttack r then 1 else 0) + (if r.action == "legitimate" then 1 else 0)
        + (if r.action == "bot_allowed" then 1 else 0) : Nat) ≤ 1 ∧
      (((if isAttack r then 1 else 0) + (if r.action == "legitimate" then 1 else 0)
          + (if r.action == "bot_allowed" then 1 else 0) : Nat) = 1
        ↔ (isAttack r = true ∨ r.action = "legitimate" ∨ r.action = "bot_allowed")) := by
  by_cases hL : r.action = "legitimate"
  · have hA := isAttack_eq_false_of_legit hL
    simp +decide [hA, hL]
  · by_cases hB : r.action = "bot_allowed"
    · have hA := isAttack_eq_false_of_bot hB
      simp +decide [hA, hB, hL]
    · by_cases hA : isAttack r
      · simp [hA, beq_iff_eq, hL, hB]
      · simp [hA, beq_iff_eq, hL, hB]

theorem countP_buckets (rs : List LogRecord) :
    rs.countP isAttack + rs.countP (fun r => r.action == "legitimate")
        + rs.countP (fun r => r.action == "bot_allowed") ≤ rs.length ∧
      (rs.countP isAttack + rs.countP (fun r => r.action == "legitimate")
          + rs.countP (fun r => r.action == "bot_allowed") = rs.length
        ↔ ∀ r ∈ rs, isAttack r = true ∨ r.action = "legitimate" ∨ r.action = "bot_allowed") := by
  induction rs with
  | nil => simp
  | cons a t ih =>
    obtain ⟨h1, h2⟩ := ih
    obtain ⟨g1, g2⟩ := bucket_inc_le a
    simp only [List.countP_cons, List.length_cons, List.forall_mem_cons]
    constructor
    · omega
    · constructor
      · intro he
        have hsplit : ((if isAttack a then 1 else 0) + (if a.action == "legitimate" then 1 else 0)
            + (if a.action == "bot_allowed" then 1 else 0) : Nat) = 1 ∧
            t.countP isAttack + t.countP (fun r => r.action == "legitimate")
              + t.countP (fun r => r.action == "bot_allowed") = t.length := by
          omega
        exact ⟨g2.mp hsplit.1, h2.mp hsplit.2⟩
      · rintro ⟨hpa, hall⟩
        have e1 := g2.mpr hpa
        have e2 := h2.mpr hall
        omega

theorem filterMap_response (rs : List LogRecord) :
    rs.filterMap (fun r => r.response_time_ms)
      = (rs.filter (fun r => r.response_time_ms.isSome)).map
          (fun r => r.response_time_ms.getD 0) := by
  induction rs with
  | nil => rfl
  | cons a t ih =>
    cases ha : a.response_time_ms with
    | none => simp [List.filterMap_cons, List.filter_cons, ha, ih]
    | some q => simp [List.filterMap_cons, List.filter_cons, ha, ih]

theorem parseAll_eq_none {rs : List LogRecord} (h : ∃ r ∈ rs, strptime r.timestamp = none) :
    parseAll rs = none := by
  induction rs with
  | nil => simp at h
  | cons a t ih =>
    rcases h with ⟨r, hr, hnone⟩
    rcases List.mem_cons.mp hr with rfl | hrt
    · rw [parseAll, hnone]
    · have ht := ih ⟨r, hrt, hnone⟩
      rw [parseAll, ht]
      cases strptime a.timestamp <;> rfl

theorem countP_spec_attack (rs : List LogRecord) :
    rs.countP (fun r => decide (r.action ∈
        (["geo_blocked", "path_blocked", "bot_blocked"] : List String)))
      = (rs.filter isAttack).length := by
  rw [← List.countP_eq_length_filter]
  congr 1
  funext r
  simp [isAttack]

theorem recognized_action_iff (r : LogRecord) :
    (isAttack r = true ∨ r.action = "legitimate" ∨ r.action = "bot_allowed")
      ↔ r.action ∈
        (["legitimate", "bot_allowed", "geo_blocked", "path_blocked", "bot_blocked"] :
          List String) := by
  simp [isAttack]
  tauto

/-- A well-formed sample record used to instantiate universally quantified
results on concrete inputs. -/
def recBad : LogRecord := ⟨"not-a-timestamp", "legitimate", "ES", "1.2.3.4", none⟩

/-! ### Claims -/

/-- C1: for every record collection, the summary's `security_score` equals
`blocked_requests / total_requests * 100` rounded to 2 decimal places,
where `blocked_requests` counts the records whose `action` is one of
`geo_blocked`, `path_blocked`, `bot_blocked` and `total_requests` counts
all records; when `total_requests = 0` the score is defined as `0`. -/
theorem security_score_formula (rs : List LogRecord) (now : DateTime) :
    (computeMetrics rs now).summary.security_score =
      if rs.length = 0 then 0
      else round2 (((rs.countP (fun r => decide (r.action ∈
          (["geo_blocked", "path_blocked", "bot_blocked"] : List String)))) : ℚ)
        / rs.length * 100) := by
  simp only [computeMetrics]
  rw [countP_spec_attack]
  rcases Nat.eq_zero_or_pos rs.length with h0 | hpos
  · simp [h0]
  · rw [if_pos hpos, if_neg (by omega)]

/-- C4 (amended): the engine is deterministic, but the time of call leaks
into `report_date` as well as `generated_at` — both are computed inside
`transform` from the clock; every other field of the result is independent
of the clock reading. -/
theorem computeMetrics_clock_independent_except_stamps (rs : List LogRecord)
    (now₁ now₂ : DateTime) :
    (computeMetrics rs now₁).summary = (computeMetrics rs now₂).summary ∧
      (computeMetrics rs now₁).geo_analysis = (computeMetrics rs now₂).geo_analysis ∧
      (computeMetrics rs now₁).threat_intel = (computeMetrics rs now₂).threat_intel ∧
      (computeMetrics rs now₁).traffic_quality = (computeMetrics rs now₂).traffic_quality :=
  ⟨rfl, rfl, rfl, rfl⟩

/-- C4 (counterexample): a field other than `generated_at`, namely
`report_date`, changes with the wall clock: the same single-record batch
transformed at an April instant and at a May instant reports different
periods. -/
theorem report_date_depends_on_clock :
    (computeMetrics [⟨"2024-03-05 10:00:00", "legitimate", "US", "1.1.1.1", some 12⟩]
          ⟨2024, 4, 15, 10, 0, 0⟩).report_date
      ≠ (computeMetrics [⟨"2024-03-05 10:00:00", "legitimate", "US", "1.1.1.1", some 12⟩]
          ⟨2024, 5, 15, 10, 0, 0⟩).report_date := by
  decide

/-- C5: `avg_latency_ms` is the arithmetic mean of `response_time_ms` over
all records, ignoring records where the value is absent (but counting
zeroes), truncated toward zero to an integer, and `0` when no record has a
usable latency value. -/
theorem avg_latency_formula (rs : List LogRecord) (now : DateTime) :
    (computeMetrics rs now).summary.avg_latency_ms =
      if (rs.filter (fun r => r.response_time_ms.isSome)).map
          (fun r => r.response_time_ms.getD 0) = [] then 0
      else intTrunc (((rs.filter (fun r => r.response_time_ms.isSome)).map
            (fun r => r.response_time_ms.getD 0)).sum
          / ((rs.filter (fun r => r.response_time_ms.isSome)).map
            (fun r => r.response_time_ms.getD 0)).length) := by
  simp only [computeMetrics, filterMap_response]
  by_cases hv : (rs.filter (fun r => r.response_time_ms.isSome)).map
      (fun r => r.response_time_ms.getD 0) = []
  · simp [hv]
  · simp [hv, List.isEmpty_iff]

/-- C6: an empty record collection produces the empty "no data" sentinel
(not an error, not a `total_requests = 0` summary), and on that sentinel
the pipeline's load step skips rendering and delivery entirely. -/
theorem empty_batch_skips (now : DateTime) :
    transform [] now = Except.ok none ∧ load none = LoadResult.skipped :=
  ⟨rfl, rfl⟩

/-- C8: if any record of a non-empty batch has an unparseable timestamp,
`transform` fails for the whole batch with a data-integrity error and no
partial summary is produced. -/
theorem transform_fails_on_bad_timestamp (rs : List LogRecord) (now : DateTime)
    (h : ∃ r ∈ rs, strptime r.timestamp = none) :
    transform rs now = Except.error "ComputeError: could not parse timestamp" := by
  have hne : rs ≠ [] := by
    rintro rfl
    simp at h
  rw [transform, if_neg (by simpa [List.isEmpty_iff] using hne), parseAll_eq_none h]

/-- C8 (witness): `transform_fails_on_bad_timestamp` applied to a concrete
batch holding one record with the unparseable timestamp of `recBad`. -/
theorem transform_fails_on_bad_timestamp_witness :
    (∃ r ∈ [recBad], strptime r.timestamp = none) ∧
      transform [recBad] ⟨2024, 4, 15, 10, 0, 0⟩
        = Except.error "ComputeError: could not parse timestamp" :=
  ⟨⟨recBad, by decide, by decide⟩,
    transform_fails_on_bad_timestamp [recBad] ⟨2024, 4, 15, 10, 0, 0⟩
      ⟨recBad, by decide, by decide⟩⟩

/-- C9: for every record collection the summary satisfies
`blocked_requests ≤ total_requests` and `security_score ∈ [0, 100]`. -/
theorem summary_invariants (rs : List LogRecord) (now : DateTime) :
    (computeMetrics rs now).summary.blocked_requests
        ≤ (computeMetrics rs now).summary.total_requests ∧
      0 ≤ (computeMetrics rs now).summary.security_score ∧
      (computeMetrics rs now).summary.security_score ≤ 100 := by
  simp only [computeMetrics]
  refine ⟨List.length_filter_le _ _, ?_, ?_⟩
  · split
    · apply round2_nonneg
      positivity
    · exact le_refl 0
  · split
    · rename_i hpos
      apply round2_le_100
      have hb : ((rs.filter isAttack).length : ℚ) ≤ (rs.length : ℚ) := by
        exact_mod_cast List.length_filter_le _ _
      have ht : (0 : ℚ) < (rs.length : ℚ) := by exact_mod_cast hpos
      have hdiv : ((rs.filter isAttack).length : ℚ) / (rs.length : ℚ) ≤ 1 :=
        (div_le_one ht).mpr hb
      linarith
    · norm_num

/-- C10: the attack, legitimate and bot-allowed buckets are mutually
disjoint, so their counts sum to at most `total_requests`, with equality
exactly when every record's action is one of the five recognized values. -/
theorem traffic_buckets_partition (rs : List LogRecord) (now : DateTime) :
    (computeMetrics rs now).summary.blocked_requests
          + (computeMetrics rs now).traffic_quality.legitimate
          + (computeMetrics rs now).traffic_quality.bots
        ≤ (computeMetrics rs now).summary.total_requests ∧
      ((computeMetrics rs now).summary.blocked_requests
            + (computeMetrics rs now).traffic_quality.legitimate
            + (computeMetrics rs now).traffic_quality.bots
          = (computeMetrics rs now).summary.total_requests
        ↔ ∀ r ∈ rs, r.action ∈
            (["legitimate", "bot_allowed", "geo_blocked", "path_blocked", "bot_blocked"] :
              List String)) := by
  have h := countP_buckets rs
  simp only [computeMetrics]
  rw [← List.countP_eq_length_filter, ← List.countP_eq_length_filter,
    ← List.countP_eq_length_filter]
  refine ⟨h.1, ?_⟩
  rw [h.2]
  exact forall_congr' fun r => imp_congr Iff.rfl (recognized_action_iff r)

/-- C2: `threat_intel` contains only IPs whose attack-record count is
strictly greater than 5 (an IP with exactly 5 blocked records is
excluded), holds at most 8 entries, and is ordered descending by count. -/
theorem threat_intel_spec (rs : List LogRecord) (now : DateTime) :
    (computeMetrics rs now).threat_intel.length ≤ 8 ∧
      (∀ p ∈ (computeMetrics rs now).threat_intel,
        5 < p.2 ∧ p.2 = ((rs.filter isAttack).map (fun r => r.ip)).count p.1) ∧
      (computeMetrics rs now).threat_intel.Pairwise (fun a b => b.2 ≤ a.2) := by
  simp only [computeMetrics]
  set ips := (rs.filter isAttack).map (fun r => r.ip) with hips
  refine ⟨List.length_take_le _ _, ?_, ?_⟩
  · intro p hp
    have h1 := mem_sortDesc.mp (List.mem_of_mem_take hp)
    have h2 := List.mem_filter.mp h1
    refine ⟨by simpa using h2.2, (mem_groupCounts h2.1).2⟩
  · have h1 := (groupCounts_pairwise ips).filter (fun p => 5 < p.2)
    have h2 := pairwise_sortDesc h1
    have h3 := h2.sublist (List.take_sublist 8 _)
    refine h3.imp ?_
    intro a b hab
    rcases hab with hlt | ⟨heq, _⟩
    · exact le_of_lt hlt
    · exact le_of_eq heq.symm

/-- C7: `geo_analysis` groups the attack records by country (one entry per
country, carrying that country's attack count), is sorted descending by
count with ties broken by the country first encountered in input order,
and is capped at 5 entries; as a pure function of the record list it is
deterministic for identical input order. -/
theorem geo_analysis_spec (rs : List LogRecord) (now : DateTime) :
    (computeMetrics rs now).geo_analysis.length ≤ 5 ∧
      (∀ p ∈ (computeMetrics rs now).geo_analysis,
        p.1 ∈ (rs.filter isAttack).map (fun r => r.country) ∧
          p.2 = ((rs.filter isAttack).map (fun r => r.country)).count p.1) ∧
      ((computeMetrics rs now).geo_analysis.map Prod.fst).Nodup ∧
      (computeMetrics rs now).geo_analysis.Pairwise (fun a b =>
        b.2 < a.2 ∨ (a.2 = b.2 ∧
          ((rs.filter isAttack).map (fun r => r.country)).indexOf a.1
            < ((rs.filter isAttack).map (fun r => r.country)).indexOf b.1)) := by
  simp only [computeMetrics]
  set cs := (rs.filter isAttack).map (fun r => r.country) with hcs
  refine ⟨List.length_take_le _ _, ?_, ?_, ?_⟩
  · intro p hp
    exact mem_groupCounts (mem_sortDesc.mp (List.mem_of_mem_take hp))
  · rw [List.map_take]
    apply List.Nodup.sublist (List.take_sublist _ _)
    have hperm : List.Perm ((sortDesc (groupCounts cs)).map Prod.fst)
        ((groupCounts cs).map Prod.fst) := (sortDesc_perm _).map _
    exact hperm.symm.nodup (groupCounts_keys_nodup cs)
  · have h1 := pairwise_sortDesc (groupCounts_pairwise cs)
    exact h1.sublist (List.take_sublist _ _)

/-- C3 (code evaluation): `get_date_range` at the instant
2024-04-15 13:45:00 returns the first days of March and of April 2024, but
at 13:45:00 rather than at the midnight first instants the claim states:
`replace(day=1)` preserves the time of day. -/
theorem get_date_range_keeps_time_of_day :
    get_date_range ⟨2024, 4, 15, 13, 45, 0⟩
        = (⟨2024, 3, 1, 13, 45, 0⟩, ⟨2024, 4, 1, 13, 45, 0⟩) ∧
      (get_date_range ⟨2024, 4, 15, 13, 45, 0⟩).1.hour ≠ 0 :=
  ⟨by decide, by decide⟩

end SecLog
